import Mathlib

/-!
Verification development for the Sage Intacct source connector.

The Python sources are embedded shallowly:

* `Val` models Python values as they appear in parsed records
  (`None`, strings, lists, dicts); dicts are insertion-ordered
  association lists, as in Python 3.7+.
* machine-level datetimes are modelled as integers counting seconds
  since the Unix epoch (UTC); `parse_rfc3339` is a partial function
  returning `Option ℤ`, mirroring `datetime.fromisoformat` which raises
  `ValueError` on malformed input.
* network calls are oracles passed in as function arguments.
-/

/-- Python values occurring in parsed records: `None`, strings,
lists and (insertion-ordered) dicts. -/
inductive Val where
  | none : Val
  | s (text : String) : Val
  | list (items : List Val) : Val
  | obj (fields : List (String × Val)) : Val

/-- A parsed record: a Python dict keyed by strings (assoc list in
insertion order, keys unique). -/
abbrev Record := List (String × Val)

/-- Python `d.get(k)`: first binding of `k`, `None`→`Option.none`. -/
def dictGet : Record → String → Option Val
  | [], _ => Option.none
  | (k', v') :: t, k => if k' = k then some v' else dictGet t k

/-- Python `d[k] = v`: replace in place when the key exists, else append. -/
def dictSet : Record → String → Val → Record
  | [], k, v => [(k, v)]
  | (k', v') :: t, k, v => if k' = k then (k, v) :: t else (k', v') :: dictSet t k v

/-- Python truthiness for the `Val` fragment. -/
def pyTruthyVal : Val → Bool
  | .none => false
  | .s t => t ≠ ""
  | .list l => !l.isEmpty
  | .obj f => !f.isEmpty

/-- Python truthiness of an optional string (`None` and `""` are falsy). -/
def pyTruthyStr : Option String → Bool
  | Option.none => false
  | some t => t ≠ ""

/-- Lift an optional entity id to the value stored by
`record["entity_id"] = entity_id` (Python `None` when absent). -/
def optStrVal : Option String → Val
  | Option.none => .none
  | some t => .s t

/-- Does `needle` occur at the head of `hay`? (helper for Python `in`). -/
def startsWithL : List Char → List Char → Bool
  | [], _ => true
  | _ :: _, [] => false
  | a :: as, b :: bs => a = b && startsWithL as bs

/-- Does `needle` occur anywhere in `hay`? (helper for Python `in`). -/
def hasSubL (needle : List Char) : List Char → Bool
  | [] => startsWithL needle []
  | c :: t => startsWithL needle (c :: t) || hasSubL needle t

/-- Python substring test `needle in hay`. -/
def pyIn (needle hay : String) : Bool := hasSubL needle.toList hay.toList

/-- Python `str.lower()` (ASCII fragment, which covers every string the
client compares). -/
def lowerStr (t : String) : String := (t.toList.map Char.toLower).asString

/-- Python `str.strip()`: drop leading and trailing whitespace. -/
def pyStrip (t : String) : String :=
  ((t.toList.dropWhile Char.isWhitespace).reverse.dropWhile Char.isWhitespace).reverse.asString

/-- Left-to-right, non-overlapping replacement over characters
(Python `str.replace` with a non-empty needle).  The `skip` counter
swallows the tail of a needle occurrence just replaced. -/
def replaceAllGo (needle repl : List Char) : ℕ → List Char → List Char
  | _, [] => []
  | 0, c :: t =>
    if startsWithL needle (c :: t) then
      repl ++ replaceAllGo needle repl (needle.length - 1) t
    else
      c :: replaceAllGo needle repl 0 t
  | k + 1, _ :: t => replaceAllGo needle repl k t

/-- Python `s.replace(needle, repl)` for a non-empty `needle`. -/
def pyReplace (s needle repl : String) : String :=
  (replaceAllGo needle.toList repl.toList 0 s.toList).asString

/-! ### Date-time model

Instants are integers: seconds since the Unix epoch, UTC.
`days_from_civil` is the standard civil-calendar day count. -/

/-- Days from 1970-01-01 to year/month/day (proleptic Gregorian). -/
def days_from_civil (y m d : ℤ) : ℤ :=
  let y2 := if m ≤ 2 then y - 1 else y
  let era := y2 / 400
  let yoe := y2 - era * 400
  let mp := (m + 9) % 12
  let doy := (153 * mp + 2) / 5 + d - 1
  let doe := yoe * 365 + yoe / 4 - yoe / 100 + doy
  era * 146097 + doe - 719468

/-- Seconds since epoch of a UTC-offset civil date-time. -/
def epochSec (y mo d h mi s : ℕ) (off : ℤ) : ℤ :=
  days_from_civil y mo d * 86400 + h * 3600 + mi * 60 + s - off

/-- Read exactly `n` decimal digits, returning their value and the rest. -/
def readDigits (acc : ℕ) : ℕ → List Char → Option (ℕ × List Char)
  | 0, cs => some (acc, cs)
  | _ + 1, [] => Option.none
  | n + 1, c :: cs =>
    if c.isDigit then readDigits (acc * 10 + (c.toNat - 48)) n cs else Option.none

/-- Consume one expected character. -/
def expectChar (c : Char) : List Char → Option (List Char)
  | [] => Option.none
  | x :: xs => if x = c then some xs else Option.none

/-- Gregorian leap-year rule. -/
def isLeap (y : ℕ) : Bool := (y % 4 = 0 && y % 100 ≠ 0) || y % 400 = 0

/-- Length of a month. -/
def daysInMonth (y m : ℕ) : ℕ :=
  if m = 2 then (if isLeap y then 29 else 28)
  else if m = 4 ∨ m = 6 ∨ m = 9 ∨ m = 11 then 30 else 31

/-- Parse the trailing UTC-offset part (`""`, or `±HH:MM`), returning the
offset in seconds. -/
def parseOffset : List Char → Option ℤ
  | [] => some 0
  | c :: cs =>
    if c = '+' ∨ c = '-' then do
      let (oh, r1) ← readDigits 0 2 cs
      let r2 ← expectChar ':' r1
      let (om, r3) ← readDigits 0 2 r2
      if r3 = [] ∧ om < 60 then
        some (if c = '+' then (oh * 3600 + om * 60 : ℤ) else -(oh * 3600 + om * 60 : ℤ))
      else Option.none
    else Option.none

/-- Model of `datetime.fromisoformat` restricted to the second-precision
grammar this connector exchanges: `YYYY-MM-DD`, optionally followed by
`T` or a space and `HH:MM:SS`, optionally followed by a `±HH:MM` offset.
Returns the instant in epoch seconds (a missing offset is taken as UTC,
matching `parse_rfc3339`'s naive-datetime branch); returns `Option.none`
where `fromisoformat` raises `ValueError`. -/
def fromisoformatSec (t : String) : Option ℤ := do
  let cs := t.toList
  let (y, r1) ← readDigits 0 4 cs
  let r2 ← expectChar '-' r1
  let (mo, r3) ← readDigits 0 2 r2
  let r4 ← expectChar '-' r3
  let (d, r5) ← readDigits 0 2 r4
  if 1 ≤ mo ∧ mo ≤ 12 ∧ 1 ≤ d ∧ d ≤ daysInMonth y mo then
    match r5 with
    | [] => some (epochSec y mo d 0 0 0 0)
    | sep :: r6 =>
      if sep = 'T' ∨ sep = ' ' then do
        let (h, r7) ← readDigits 0 2 r6
        let r8 ← expectChar ':' r7
        let (mi, r9) ← readDigits 0 2 r8
        let r10 ← expectChar ':' r9
        let (s, r11) ← readDigits 0 2 r10
        if h < 24 ∧ mi < 60 ∧ s < 60 then do
          let off ← parseOffset r11
          some (epochSec y mo d h mi s off)
        else Option.none
      else Option.none
  else Option.none

/-- `streams.parse_rfc3339`: replace `"Z"` with `"+00:00"` and feed the
result to `datetime.fromisoformat`, normalising to UTC. -/
def parse_rfc3339 (value : String) : Option ℤ :=
  fromisoformatSec (pyReplace value "Z" "+00:00")

/-- Left-pad a decimal rendering with zeros to width `w`. -/
def padNum (w n : ℕ) : String :=
  let t := toString n
  (List.replicate (w - t.length) '0').asString ++ t

/-- `client.format_query_dt`: `strftime("%m/%d/%Y %H:%M:%S")` of a civil
date-time. -/
def format_query_dt (y mo d h mi s : ℕ) : String :=
  padNum 2 mo ++ "/" ++ padNum 2 d ++ "/" ++ padNum 4 y ++ " " ++
    padNum 2 h ++ ":" ++ padNum 2 mi ++ ":" ++ padNum 2 s

/-- `parse_rfc3339` lifted into the `Except` monad: in Python an
unparseable string raises `ValueError`. -/
def pyParseDT (t : String) : Except String ℤ :=
  match parse_rfc3339 t with
  | some v => .ok v
  | Option.none => .error "ValueError"

/-! ### Protocol client (`client.py`) -/

/-- A parsed XML element: tag, text (Python `None` text modelled as
`""`, matching `node.text or ""`), and child elements in order. -/
inductive XNode where
  | mk (tag : String) (text : String) (children : List XNode)

/-- Tag of an element. -/
def XNode.tag : XNode → String
  | .mk t _ _ => t

/-- Child elements, in document order. -/
def XNode.children : XNode → List XNode
  | .mk _ _ c => c

/-- Append an evaluated child value to its tag's group, preserving the
first-occurrence order of tags (`dict.setdefault(...).append(...)`). -/
def appendGroup (acc : List (String × List Val)) (tag : String) (v : Val) :
    List (String × List Val) :=
  match acc with
  | [] => [(tag, [v])]
  | (t, vs) :: rest =>
    if t = tag then (t, vs ++ [v]) :: rest else (t, vs) :: appendGroup rest tag v

/-- Collapse each tag group: a single value stays scalar, repeated
sibling tags become an ordered list. -/
def collapseGrouped (g : List (String × List Val)) : Record :=
  g.map fun p => (p.1, match p.2 with
    | [v] => v
    | vs => .list vs)

mutual

/-- `client.element_to_value`: a childless element yields its stripped
text; otherwise children are grouped by tag (insertion order) and each
group collapses to a scalar or an ordered list. -/
def element_to_value : XNode → Val
  | .mk _ text [] => .s (pyStrip text)
  | .mk _ _ (c :: cs) => .obj (collapseGrouped (groupChildren [] (c :: cs)))

/-- The grouping fold over children inside `element_to_value`. -/
def groupChildren (acc : List (String × List Val)) :
    List XNode → List (String × List Val)
  | [] => acc
  | c :: cs => groupChildren (appendGroup acc c.tag (element_to_value c)) cs

end

/-- Lookup a tag's group. -/
def lookupGroup : List (String × List Val) → String → Option (List Val)
  | [], _ => Option.none
  | (t, vs) :: rest, tag => if t = tag then some vs else lookupGroup rest tag

/-- The client's error taxonomy: `IntacctError` (plain), `IntacctAuthError`,
`IntacctPermissionError`, `IntacctTransientError`, each carrying the
surfaced description. -/
inductive IErr where
  | plain (msg : String) : IErr
  | auth (msg : String) : IErr
  | permission (msg : String) : IErr
  | transient (msg : String) : IErr
deriving DecidableEq

/-- One `operation/result` node, with the fields `_raise_if_failure` and
`_parse_records` read from it (a field is `Option.none` when the XPath
finds nothing or only blank text, matching `IntacctClient._text`). -/
structure ResultNode where
  status : Option String
  description2 : Option String
  description : Option String
  errorno : Option String
  data : List XNode

/-- A response envelope, with the fields `_raise_if_failure` reads
(post-`_text`, so blank text is already `Option.none`). -/
structure Resp where
  controlStatus : Option String
  ctrlDescription2 : Option String
  ctrlDescription : Option String
  authStatus : Option String
  authDescription2 : Option String
  results : List ResultNode

/-- Does this result node fail (`status` present and not `success`,
case-insensitively)? -/
def resultFails (r : ResultNode) : Bool :=
  match r.status with
  | some st => !(lowerStr st = "success")
  | Option.none => false

/-- The failure message of a result: `description2` or `description` or
`"Operation failure"`. -/
def resultMessage (r : ResultNode) : String :=
  ((r.description2).orElse (fun _ => r.description)).getD "Operation failure"

/-- Classification of one failing result node by message text and error
code, as in the tail of `_raise_if_failure`. -/
def classify_failed_result (r : ResultNode) : IErr :=
  let msg := resultMessage r
  let lowered := lowerStr msg
  let error_no := (r.errorno).getD ""
  if pyIn "permission" lowered || error_no = "WSP001" then .permission msg
  else if pyIn "timeout" lowered || pyIn "temporarily unavailable" lowered then
    .transient msg
  else if pyIn "login" lowered || pyIn "authentication" lowered then .auth msg
  else .plain msg

/-- The result loop of `_raise_if_failure`: the first failing result
determines the raised error. -/
def classify_results : List ResultNode → Option IErr
  | [] => Option.none
  | r :: rest =>
    if resultFails r then some (classify_failed_result r) else classify_results rest

/-- The guard `control_status and control_status.lower() != "success"`:
a present status that is not `success` (case-insensitively). -/
def ctrlFails (resp : Resp) : Bool :=
  match resp.controlStatus with
  | some cs => !(lowerStr cs = "success")
  | Option.none => false

/-- The guard `auth_status and auth_status.lower() != "success"`. -/
def authFails (resp : Resp) : Bool :=
  match resp.authStatus with
  | some as => !(lowerStr as = "success")
  | Option.none => false

/-- `IntacctClient._raise_if_failure`: control block first, then the
authentication block, then each result in order; `Option.none` means no
exception is raised. -/
def raise_if_failure (resp : Resp) : Option IErr :=
  if ctrlFails resp then
    some (.plain (((resp.ctrlDescription2).orElse
      (fun _ => resp.ctrlDescription)).getD "Control failure"))
  else if authFails resp then
    some (.auth ((resp.authDescription2).getD "Auth failure"))
  else
    classify_results resp.results

/-- What one transport attempt produces before classification: a
connection/timeout failure, or an HTTP status with a parsed envelope. -/
inductive AttemptResult where
  | netErr : AttemptResult
  | http (status : ℕ) (resp : Resp) : AttemptResult

/-- The body of one attempt of `_call_function`: connection and timeout
errors surface like `IntacctTransientError` (they share the retry
`except` clause), HTTP 5xx raises transient, HTTP 4xx raises a plain
`IntacctError`, otherwise the parsed envelope goes through
`_raise_if_failure`. -/
def attempt_outcome : AttemptResult → Except IErr Resp
  | .netErr => .error (.transient "connection error")
  | .http st resp =>
    if 500 ≤ st then .error (.transient ("HTTP " ++ toString st))
    else if 400 ≤ st then .error (.plain ("HTTP " ++ toString st))
    else
      match raise_if_failure resp with
      | some e => .error e
      | Option.none => .ok resp

/-- Which raised errors the retry `except` clause catches:
`requests.Timeout`, `requests.ConnectionError`, `IntacctTransientError`
(all modelled as `.transient`). -/
def retryable : IErr → Bool
  | .transient _ => true
  | _ => false

/-- The retry loop of `_call_function`: `remaining` attempts left,
`attempt` is the current index, `backoff` the next sleep, `sleeps` the
delays slept so far.  On the last attempt a retryable error is re-raised;
a non-retryable error propagates immediately.  (`remaining = 0` is the
unreachable fall-through after the loop.) -/
def callGo (att : ℕ → AttemptResult) :
    ℕ → ℕ → ℕ → List ℕ → Except IErr Resp × List ℕ
  | 0, _, _, sleeps => (.error (.plain "Retry budget exhausted"), sleeps)
  | rem + 1, attempt, backoff, sleeps =>
    match attempt_outcome (att attempt) with
    | .ok r => (.ok r, sleeps)
    | .error e =>
      if retryable e then
        if rem = 0 then (.error e, sleeps)
        else callGo att rem (attempt + 1) (backoff * 2) (sleeps ++ [backoff])
      else (.error e, sleeps)

/-- `IntacctClient._call_function`: up to 4 attempts, initial backoff one
unit, doubling.  Returns the outcome and the list of delays slept. -/
def call_function (att : ℕ → AttemptResult) : Except IErr Resp × List ℕ :=
  callGo att 4 0 1 []

/-- `IntacctClient._parse_records`: children of every `result/data` node
become records; `error`/`warnings` children are skipped; a scalar child
is wrapped as a single-field record. -/
def parse_records (resp : Resp) : List Record :=
  resp.results.flatMap fun r =>
    r.data.flatMap fun child =>
      if child.tag = "error" ∨ child.tag = "warnings" then []
      else
        match element_to_value child with
        | .obj fields => [fields]
        | v => [[(child.tag, v)]]

/-- A full call as the streams see it: either records or the raised
error (an exception before parsing means zero records). -/
def call_records (att : ℕ → AttemptResult) : Except IErr (List Record) :=
  match (call_function att).1 with
  | .ok r => .ok (parse_records r)
  | .error e => .error e

/-! ### Incremental sync engine (`streams.SageIntacctBaseStream`) -/

/-- The loop body of `_generate_slices`, with explicit fuel: while the
cursor is before `e`, emit `(cursor, min (cursor + step) e)` and advance
the cursor to the slice's end. -/
def generate_slices_go (step : ℤ) : ℕ → ℤ → ℤ → List (ℤ × ℤ)
  | 0, _, _ => []
  | fuel + 1, cursor, e =>
    if cursor < e then
      (cursor, min (cursor + step) e) ::
        generate_slices_go step fuel (min (cursor + step) e) e
    else []

/-- `SageIntacctBaseStream._generate_slices`: starting at `start`, emit
half-open slices of width `step` until `e`, clipping the last one to `e`.
The fuel `(e - start).toNat` is an upper bound on the loop's iteration
count whenever `0 < step`, because each iteration advances the cursor by
at least one; `generate_slices_go_spec` proves the loop always runs to
completion within it (the last slice ends exactly at `e`).  (The source
loops forever when the configured step is not positive; that case is cut
off to `[]` here and never used.) -/
def generate_slices (step start e : ℤ) : List (ℤ × ℤ) :=
  if 0 < step then generate_slices_go step (e - start).toNat start e else []

/-- `SageIntacctBaseStream._compute_start_time`: the configured global
start when no cursor exists, else `max(cursor − lookback, global start)`.
Date strings are parsed with `parse_rfc3339`, which raises on bad input. -/
def compute_start_time (start_date : String) (lookback_days : ℤ)
    (cursor_value : Option String) : Except String ℤ := do
  let default_start ← pyParseDT start_date
  if pyTruthyStr cursor_value then
    match cursor_value with
    | some c => do
      let pc ← pyParseDT c
      .ok (max (pc - lookback_days * 86400) default_start)
    | Option.none => .ok default_start
  else
    .ok default_start

/-- The record-by-record fold inside `read_records`: remember the largest
`WHENMODIFIED` string seen so far (`max_seen`), starting from the
entity's stored cursor.  Only non-empty string values count; comparison
parses both sides and Python raises when either is unparseable. -/
def update_max_seen (max_seen : Option String) (record : Record) :
    Except String (Option String) :=
  match dictGet record "WHENMODIFIED" with
  | some (.s w) =>
    if w = "" then .ok max_seen
    else if pyTruthyStr max_seen then
      match max_seen with
      | some m => do
        let pw ← pyParseDT w
        let pm ← pyParseDT m
        .ok (if pm < pw then some w else some m)
      | Option.none => .ok (some w)
    else .ok (some w)
  | _ => .ok max_seen

/-- One slice of `read_records`: fold `update_max_seen` over the slice's
records, starting (as the source does) from the entity's *initial*
cursor value `cursor_value`. -/
def process_slice_max (records : List Record) (cursor_value : Option String) :
    Except String (Option String) :=
  records.foldlM update_max_seen cursor_value

/-- The per-entity body of `SageIntacctBaseStream.read_records`, driven by
a query oracle `fetch` mapping a slice to the records the server returns
for it.  Returns the stored cursor after each slice: each slice restarts
`max_seen` from the initial `cursor_value` and, when the result is truthy,
overwrites the entity's stored cursor with it. -/
def read_records_entity_trace (fetch : ℤ × ℤ → List Record)
    (start_date : String) (lookback_days slice_step_days : ℤ) (now : ℤ)
    (cursor_value : Option String) : Except String (List (Option String)) := do
  let start ← compute_start_time start_date lookback_days cursor_value
  let slices := generate_slices (slice_step_days * 86400) start now
  let r ← slices.foldlM
    (fun (acc : List (Option String) × Option String) sl => do
      let ms ← process_slice_max (fetch sl) cursor_value
      let st := if pyTruthyStr ms then ms else acc.2
      pure (acc.1 ++ [st], st))
    ([], cursor_value)
  pure r.1

/-- In-place update of a string-valued dict (Python assignment). -/
def dictSetS : List (String × String) → String → String → List (String × String)
  | [], k, v => [(k, v)]
  | (k', v') :: t, k, v => if k' = k then (k, v) :: t else (k', v') :: dictSetS t k v

/-- First binding of `k` in a string-valued dict. -/
def dictGetS : List (String × String) → String → Option String
  | [], _ => Option.none
  | (k', v') :: t, k => if k' = k then some v' else dictGetS t k

/-- `SageIntacctBaseStream.get_updated_state`: per-entity state merge of
one latest record.  State is the per-entity cursor map
(`{"entities": {entity: {"cursor": v}}}` collapsed to an assoc list from
entity key to cursor string). -/
def get_updated_state (entities_state : List (String × String))
    (latest_entity : Option String) (latest_cursor : Option String) :
    Except String (List (String × String)) := do
  let entity_id := match latest_entity with
    | some e => if e = "" then "_root" else e
    | Option.none => "_root"
  if pyTruthyStr latest_cursor then
    match latest_cursor with
    | some lc =>
      let existing := dictGetS entities_state entity_id
      if pyTruthyStr existing then
        match existing with
        | some ex => do
          let pl ← pyParseDT lc
          let pe ← pyParseDT ex
          if pe < pl then .ok (dictSetS entities_state entity_id lc)
          else .ok entities_state
        | Option.none => .ok entities_state
      else
        .ok (dictSetS entities_state entity_id lc)
    | Option.none => .ok entities_state
  else
    .ok entities_state

/-! ### Pagination (`_read_full_for_entity` / `client.read_more`) -/

/-- One page as `QueryResult` carries it: records, optional continuation
token, remaining count. -/
structure Page where
  records : List Record
  resultId : Option String
  numRemaining : ℤ

/-- The pagination loop shared by `_read_full_for_entity` and
`_read_incremental_slice`: emit the current page's records stamped with
the entity id, then, while a token is present and the remaining count is
positive, call `read_more` with the current token.  `read_more` keeps the
previous token when the response omits one (`... or result_id`).  The
server's successive continuation responses are the list `rest`; an
exhausted `rest` models a server that answers no further continuation.
Returns the emitted records and the tokens passed to `read_more`. -/
def drain_pages (entity_id : Option String) :
    Page → List Page → List Record × List String
  | cur, rest =>
    let recs := cur.records.map fun r => dictSet r "entity_id" (optStrVal entity_id)
    match cur.resultId with
    | Option.none => (recs, [])
    | some tok =>
      if cur.numRemaining ≤ 0 then (recs, [])
      else
        match rest with
        | [] => (recs, [])
        | p :: t =>
          let next : Page :=
            { records := p.records
              resultId := some ((p.resultId).getD tok)
              numRemaining := p.numRemaining }
          let out := drain_pages entity_id next t
          (recs ++ out.1, tok :: out.2)

/-- Claim-side specification of the continuation tokens: each call uses
the last received token, and a response that omits its token leaves the
previous one in force. -/
def expectedTokens (t : String) : List Page → List String
  | [] => []
  | p :: rest => t :: expectedTokens ((p.resultId).getD t) rest

/-! ### Cursor-less fallback (`ArInvoiceItemsStream`) -/

/-- `ArInvoiceItemsStream._extract_invoice_items`: keep the values of
keys containing `"ARINVOICEITEM"`; a dict value is one item, a list
value contributes its dict elements. -/
def extract_invoice_items (record : Record) : List Record :=
  record.flatMap fun kv =>
    if pyIn "ARINVOICEITEM" kv.1 then
      match kv.2 with
      | .obj fields => [fields]
      | .list subs => subs.filterMap fun v =>
          match v with
          | .obj fields => some fields
          | _ => Option.none
      | _ => []
    else []

/-- The stamping applied to each extracted item before it is emitted. -/
def stampItem (item : Record) (record_no : Val) (when_modified : Val)
    (entity_id : Option String) : Record :=
  dictSet (dictSet (dictSet item "INVOICE_RECORDNO" record_no)
    "WHENMODIFIED" when_modified) "entity_id" (optStrVal entity_id)

/-- `ArInvoiceItemsStream._iter_items_for_invoice_records`: for each
invoice row with a truthy `RECORDNO`, fetch its full record(s) by key
(`read_full` abstracts `client.read("ARINVOICE", keys=[str(record_no)],
fields=["*"])`, indexed by the record-number value), extract the nested
invoice-item collections, and stamp each item with the parent's key,
the parent's `WHENMODIFIED` and the entity id. -/
def iter_items_for_invoice_records (read_full : Val → List Record)
    (entity_id : Option String) (invoices : List Record) : List Record :=
  invoices.flatMap fun invoice =>
    match dictGet invoice "RECORDNO" with
    | Option.none => []
    | some record_no =>
      if pyTruthyVal record_no then
        (read_full record_no).flatMap fun full =>
          (extract_invoice_items full).map fun item =>
            stampItem item record_no ((dictGet invoice "WHENMODIFIED").getD .none)
              entity_id
      else []

/-! ### Stream-output flattening

`source.py` and the test suite call `SageIntacctBaseStream._prepare_record`
and `infer_json_schema`, but no such methods exist in `streams.py`:
the record-normalisation layer is missing from the sources at hand.
The flattening below is therefore modelled from the spec, not translated
from code. -/

mutual

/-- Modelled from the spec: the flattening step of the missing
`SageIntacctBaseStream._prepare_record` — "nested mappings are further
flattened into a single namespace by joining ancestor tag names with a
separator" (the test suite fixes the separator as `"_"`: `BILLTO →
MAILADDRESS → ADDRESS1` becomes `BILLTO_MAILADDRESS_ADDRESS1`).
Non-mapping values, lists included, pass through untouched, so repeated
sibling tags keep their ordered list. -/
def flattenEntry (key : String) : Val → List (String × Val)
  | .obj fields => flattenFields key fields
  | v => [(key, v)]

/-- Modelled from the spec: flatten the fields of a nested mapping under
the joined ancestor path `key`. -/
def flattenFields (key : String) : List (String × Val) → List (String × Val)
  | [] => []
  | kv :: rest => flattenEntry (key ++ "_" ++ kv.1) kv.2 ++ flattenFields key rest

end

/-- Modelled from the spec: flatten a whole record into a single flat
key namespace. -/
def prepare_record_flatten (record : Record) : Record :=
  record.flatMap fun kv => flattenEntry kv.1 kv.2

/-- Is a value free of nested mappings at the top level? -/
def isFlatV : Val → Bool
  | .obj _ => false
  | _ => true

/-! ## Lemmas about slice generation -/

lemma generate_slices_go_stop (step e : ℤ) (fuel : ℕ) (cursor : ℤ)
    (h : ¬cursor < e) : generate_slices_go step fuel cursor e = [] := by
  cases fuel with
  | zero => rfl
  | succ n => simp [generate_slices_go, h]

lemma generate_slices_go_spec (step : ℤ) (hs : 0 < step) (e : ℤ) :
    ∀ (fuel : ℕ) (cursor : ℤ), (e - cursor).toNat ≤ fuel → cursor < e →
      (generate_slices_go step fuel cursor e).head? =
        some (cursor, min (cursor + step) e) ∧
      List.Chain' (fun a b : ℤ × ℤ => a.2 = b.1)
        (generate_slices_go step fuel cursor e) ∧
      ((generate_slices_go step fuel cursor e).getLast?).map Prod.snd = some e ∧
      ∀ p ∈ generate_slices_go step fuel cursor e,
        cursor ≤ p.1 ∧ p.1 < p.2 ∧ p.2 ≤ e := by
  intro fuel
  induction fuel with
  | zero =>
    intro c hle hlt
    exfalso
    omega
  | succ n ih =>
    intro c hle hlt
    have heq : generate_slices_go step (n + 1) c e =
        (c, min (c + step) e) :: generate_slices_go step n (min (c + step) e) e := by
      simp [generate_slices_go, hlt]
    rcases le_or_lt e (c + step) with hc | hc
    · have hmin : min (c + step) e = e := min_eq_right hc
      rw [heq, hmin, generate_slices_go_stop step e n e (by omega)]
      refine ⟨rfl, List.chain'_singleton _, by simp, ?_⟩
      intro p hp
      simp only [List.mem_singleton] at hp
      subst hp
      exact ⟨le_rfl, hlt, le_rfl⟩
    · have hmin : min (c + step) e = c + step := min_eq_left hc.le
      obtain ⟨ihHead, ihChain, ihLast, ihBounds⟩ := ih (c + step) (by omega) hc
      rw [heq, hmin]
      refine ⟨rfl, ?_, ?_, ?_⟩
      · rw [List.chain'_cons']
        refine ⟨?_, ihChain⟩
        intro b hb
        rw [ihHead] at hb
        simp only [Option.mem_def, Option.some_inj] at hb
        rw [← hb]
      · have hne : generate_slices_go step n (c + step) e ≠ [] := by
          intro h0
          rw [h0] at ihHead
          simp at ihHead
        obtain ⟨b, t, hbt⟩ := List.exists_cons_of_ne_nil hne
        rw [hbt, List.getLast?_cons_cons]
        rw [hbt] at ihLast
        exact ihLast
      · intro p hp
        rcases List.mem_cons.1 hp with h | h
        · subst h
          exact ⟨le_rfl, by omega, hc.le⟩
        · obtain ⟨h1, h2, h3⟩ := ihBounds p h
          exact ⟨by omega, h2, h3⟩

lemma generate_slices_spec (step : ℤ) (hs : 0 < step) (e start : ℤ)
    (hlt : start < e) :
    (generate_slices step start e).head? = some (start, min (start + step) e) ∧
    List.Chain' (fun a b : ℤ × ℤ => a.2 = b.1) (generate_slices step start e) ∧
    ((generate_slices step start e).getLast?).map Prod.snd = some e ∧
    ∀ p ∈ generate_slices step start e, start ≤ p.1 ∧ p.1 < p.2 ∧ p.2 ≤ e := by
  unfold generate_slices
  rw [if_pos hs]
  exact generate_slices_go_spec step hs e (e - start).toNat start le_rfl hlt

lemma generate_slices_start_le (step : ℤ) (hs : 0 < step) (start e : ℤ) :
    ∀ p ∈ generate_slices step start e, start ≤ p.1 := by
  intro p hp
  rcases lt_or_le start e with hlt | hge
  · exact ((generate_slices_spec step hs e start hlt).2.2.2 p hp).1
  · unfold generate_slices at hp
    rw [if_pos hs, generate_slices_go_stop step e _ start (by omega)] at hp
    simp at hp

lemma generate_slices_scenario :
    generate_slices (7 * 86400) (19723 * 86400) (19742 * 86400) =
      [(19723 * 86400, 19730 * 86400), (19730 * 86400, 19737 * 86400),
        (19737 * 86400, 19742 * 86400)] := by decide

/-- C2: for every start strictly before `e` and every positive step, the
generated slices tile `[start, e)` exactly — the first slice starts at
`start`, each slice's end is the next slice's start, the last slice ends
at `e`, every slice is a non-empty sub-interval of `[start, e)` — and the
concrete scenario start 2024-01-01, width 7 days, end 2024-01-20 (epoch
seconds `19723*86400`, `7*86400`, `19742*86400`) yields exactly the three
slices 01-01→01-08, 01-08→01-15, 01-15→01-20. -/
theorem slices_exactly_tile (step start e : ℤ) (hs : 0 < step) (hlt : start < e) :
    (((generate_slices step start e).head?).map Prod.fst = some start) ∧
    List.Chain' (fun a b : ℤ × ℤ => a.2 = b.1) (generate_slices step start e) ∧
    (((generate_slices step start e).getLast?).map Prod.snd = some e) ∧
    (∀ p ∈ generate_slices step start e, start ≤ p.1 ∧ p.1 < p.2 ∧ p.2 ≤ e) ∧
    generate_slices (7 * 86400) (19723 * 86400) (19742 * 86400) =
      [(19723 * 86400, 19730 * 86400), (19730 * 86400, 19737 * 86400),
        (19737 * 86400, 19742 * 86400)] := by
  obtain ⟨h1, h2, h3, h4⟩ := generate_slices_spec step hs e start hlt
  exact ⟨by rw [h1]; rfl, h2, h3, h4, generate_slices_scenario⟩

/-- Witness for C2 at step 7 days, start 2024-01-01, end 2024-01-20. -/
theorem slices_exactly_tile_witness :
    ((0 : ℤ) < 7 * 86400 ∧ (19723 * 86400 : ℤ) < 19742 * 86400) ∧
    ((((generate_slices (7 * 86400) (19723 * 86400) (19742 * 86400)).head?).map
        Prod.fst = some (19723 * 86400 : ℤ)) ∧
      List.Chain' (fun a b : ℤ × ℤ => a.2 = b.1)
        (generate_slices (7 * 86400) (19723 * 86400) (19742 * 86400)) ∧
      (((generate_slices (7 * 86400) (19723 * 86400) (19742 * 86400)).getLast?).map
        Prod.snd = some (19742 * 86400 : ℤ)) ∧
      (∀ p ∈ generate_slices (7 * 86400) (19723 * 86400) (19742 * 86400),
        (19723 * 86400 : ℤ) ≤ p.1 ∧ p.1 < p.2 ∧ p.2 ≤ 19742 * 86400) ∧
      generate_slices (7 * 86400) (19723 * 86400) (19742 * 86400) =
        [(19723 * 86400, 19730 * 86400), (19730 * 86400, 19737 * 86400),
          (19737 * 86400, 19742 * 86400)]) :=
  ⟨⟨by norm_num, by norm_num⟩,
    slices_exactly_tile (7 * 86400) (19723 * 86400) (19742 * 86400)
      (by norm_num) (by norm_num)⟩

/-- C8: with a parseable configured start date, the computed sync start is
the global start when no prior cursor exists, and otherwise
`max(global_start, cursor − lookback)`; consequently the computed start,
and hence every generated slice's start, never precedes the global start
date even after lookback subtraction. -/
theorem start_time_clamped_to_global_start (start_date cursor : String)
    (lb step e sd c : ℤ) (h1 : parse_rfc3339 start_date = some sd)
    (h2 : parse_rfc3339 cursor = some c) (h3 : cursor ≠ "") (hs : 0 < step) :
    compute_start_time start_date lb Option.none = .ok sd ∧
    compute_start_time start_date lb (some cursor) = .ok (max (c - lb * 86400) sd) ∧
    sd ≤ max (c - lb * 86400) sd ∧
    ∀ st, compute_start_time start_date lb (some cursor) = .ok st →
      ∀ p ∈ generate_slices step st e, sd ≤ p.1 := by
  have hc : compute_start_time start_date lb (some cursor) =
      .ok (max (c - lb * 86400) sd) := by
    have hd : decide (cursor ≠ "") = true := by simp [h3]
    simp only [compute_start_time, pyParseDT, h1, h2, pyTruthyStr, hd]
    rfl
  refine ⟨by simp [compute_start_time, pyParseDT, h1, pyTruthyStr]; rfl, hc,
    le_max_right _ _, ?_⟩
  intro st hst p hp
  rw [hc] at hst
  have hst' : st = max (c - lb * 86400) sd := by
    cases hst
    rfl
  have hle := generate_slices_start_le step hs st e p hp
  have : sd ≤ st := by
    rw [hst']
    exact le_max_right _ _
  omega

/-- Witness for C8 at the configured start 2024-01-01, cursor 2024-01-10,
lookback 3 days, step 7 days. -/
theorem start_time_clamped_to_global_start_witness :
    (parse_rfc3339 "2024-01-01T00:00:00Z" = some (19723 * 86400) ∧
      parse_rfc3339 "2024-01-10T00:00:00Z" = some (19732 * 86400) ∧
      "2024-01-10T00:00:00Z" ≠ "" ∧ (0 : ℤ) < 7 * 86400) ∧
    (compute_start_time "2024-01-01T00:00:00Z" 3 Option.none = .ok (19723 * 86400) ∧
      compute_start_time "2024-01-01T00:00:00Z" 3 (some "2024-01-10T00:00:00Z") =
        .ok (max (19732 * 86400 - 3 * 86400) (19723 * 86400)) ∧
      (19723 * 86400 : ℤ) ≤ max (19732 * 86400 - 3 * 86400) (19723 * 86400) ∧
      ∀ st, compute_start_time "2024-01-01T00:00:00Z" 3 (some "2024-01-10T00:00:00Z") =
        .ok st → ∀ p ∈ generate_slices (7 * 86400) st (19742 * 86400),
          (19723 * 86400 : ℤ) ≤ p.1) :=
  ⟨⟨by decide, by decide, by decide, by norm_num⟩,
    start_time_clamped_to_global_start "2024-01-01T00:00:00Z" "2024-01-10T00:00:00Z"
      3 (7 * 86400) (19742 * 86400) (19723 * 86400) (19732 * 86400)
      (by decide) (by decide) (by decide) (by norm_num)⟩

lemma exceptOkBind {ε α β : Type} (a : α) (f : α → Except ε β) :
    (Except.ok a : Except ε α) >>= f = f a := rfl

/-- The concrete query oracle for the C1 trace: the server holds one
record, `WHENMODIFIED = "2024-01-12T00:00:00Z"` (epoch `19734*86400`),
returned for any slice containing that instant. -/
def c1fetch (sl : ℤ × ℤ) : List Record :=
  if sl.1 ≤ 19734 * 86400 ∧ 19734 * 86400 < sl.2 then
    [[("RECORDNO", Val.s "9"), ("WHENMODIFIED", Val.s "2024-01-12T00:00:00Z")]]
  else []

/-- C1 (refuted — code bug): with global start 2024-01-01, lookback 3
days, step 7 days, now 2024-01-20, stored cursor `2024-01-10`, and a
server holding one record modified 2024-01-12, `read_records` walks two
slices `[01-07, 01-14)` and `[01-14, 01-20)`.  The first slice commits
cursor `2024-01-12`; the second slice is empty, yet — because
`max_seen` restarts from the *initial* cursor value each slice and the
commit is unconditional — the code re-commits `2024-01-10`, regressing
the stored cursor below the maximum observed modification value. -/
theorem cursor_regresses_after_empty_slice :
    read_records_entity_trace c1fetch "2024-01-01T00:00:00Z" 3 7 (19742 * 86400)
      (some "2024-01-10T00:00:00Z") =
      .ok [some "2024-01-12T00:00:00Z", some "2024-01-10T00:00:00Z"] ∧
    parse_rfc3339 "2024-01-10T00:00:00Z" = some (19732 * 86400) ∧
    parse_rfc3339 "2024-01-12T00:00:00Z" = some (19734 * 86400) ∧
    (19732 * 86400 : ℤ) < 19734 * 86400 :=
  ⟨by rfl, by rfl, by rfl, by norm_num⟩

/-- C3 (refuted — code bug): `format_query_dt` renders the instant
2026-01-26T13:37:29Z (epoch `1769434649`) as `"01/26/2026 13:37:29"`,
but `parse_rfc3339` — the only parser in the source — delegates to
`datetime.fromisoformat` and rejects that string (`ValueError`,
modelled as `Option.none`), while the repository's own test
`test_parse_intacct_datetime_format` expects it to parse to the
canonical instant; parsing the canonical form does succeed. -/
theorem query_format_roundtrip_fails :
    epochSec 2026 1 26 13 37 29 0 = 1769434649 ∧
    format_query_dt 2026 1 26 13 37 29 = "01/26/2026 13:37:29" ∧
    parse_rfc3339 "01/26/2026 13:37:29" = Option.none ∧
    parse_rfc3339 "2026-01-26T13:37:29Z" = some 1769434649 :=
  ⟨by decide, by decide, by decide, by decide⟩

/-- The empty response envelope (statuses absent), used to exercise the
pure HTTP-level classification. -/
def emptyResp : Resp :=
  ⟨Option.none, Option.none, Option.none, Option.none, Option.none, []⟩

/-- C5: a transient failure (connection/timeout, HTTP 5xx, or a
business-level temporarily-unavailable condition) is retried under a
budget of 4 attempts with delays 1, 2, 4 doubling the initial unit, and
the last error is re-raised once the budget is exhausted; a
non-transient error (HTTP 4xx, or a non-transient business failure)
raises immediately with no retry and no sleep. -/
theorem transient_retried_then_reraised_fatal_immediate
    (att1 att2 : ℕ → AttemptResult) (e0 e1 e2 e3 f : IErr)
    (h0 : attempt_outcome (att1 0) = .error e0) (r0 : retryable e0 = true)
    (h1 : attempt_outcome (att1 1) = .error e1) (r1 : retryable e1 = true)
    (h2 : attempt_outcome (att1 2) = .error e2) (r2 : retryable e2 = true)
    (h3 : attempt_outcome (att1 3) = .error e3) (r3 : retryable e3 = true)
    (hf : attempt_outcome (att2 0) = .error f) (rf : retryable f = false) :
    call_function att1 = (.error e3, [1, 2, 4]) ∧
    call_function att2 = (.error f, []) := by
  constructor
  · simp [call_function, callGo, h0, r0, h1, r1, h2, r2, h3, r3]
  · simp [call_function, callGo, hf, rf]

/-- Witness for C5: a server answering HTTP 500 forever exhausts the
budget with delays 1, 2, 4; a server answering HTTP 404 fails at once. -/
theorem transient_retried_then_reraised_fatal_immediate_witness :
    (attempt_outcome (.http 500 emptyResp) = .error (.transient "HTTP 500") ∧
      retryable (.transient "HTTP 500") = true ∧
      attempt_outcome (.http 404 emptyResp) = .error (.plain "HTTP 404") ∧
      retryable (.plain "HTTP 404") = false) ∧
    call_function (fun _ => .http 500 emptyResp) =
      (.error (.transient "HTTP 500"), [1, 2, 4]) ∧
    call_function (fun _ => .http 404 emptyResp) = (.error (.plain "HTTP 404"), []) :=
  ⟨⟨by rfl, by rfl, by rfl, by rfl⟩,
    transient_retried_then_reraised_fatal_immediate
      (fun _ => .http 500 emptyResp) (fun _ => .http 404 emptyResp)
      (.transient "HTTP 500") (.transient "HTTP 500") (.transient "HTTP 500")
      (.transient "HTTP 500") (.plain "HTTP 404")
      (by rfl) (by rfl) (by rfl) (by rfl) (by rfl) (by rfl) (by rfl) (by rfl)
      (by rfl) (by rfl)⟩

/-- C6: when the control block does not fail, a response whose operation
authentication status is `"failure"` raises `IntacctAuthError` carrying
the authentication error description, whatever the result nodes contain,
and the call yields zero records (the error is raised before parsing). -/
theorem auth_failure_raises_auth_error (resp : Resp)
    (hc : ∀ cs, resp.controlStatus = some cs → lowerStr cs = "success")
    (ha : resp.authStatus = some "failure") :
    raise_if_failure resp =
      some (.auth ((resp.authDescription2).getD "Auth failure")) ∧
    call_records (fun _ => .http 200 resp) =
      .error (.auth ((resp.authDescription2).getD "Auth failure")) := by
  have hcf : ctrlFails resp = false := by
    unfold ctrlFails
    cases hcs : resp.controlStatus with
    | none => rfl
    | some cs => simp [hc cs hcs]
  have haf : authFails resp = true := by
    unfold authFails
    rw [ha]
    decide
  have hrf : raise_if_failure resp =
      some (.auth ((resp.authDescription2).getD "Auth failure")) := by
    simp [raise_if_failure, hcf, haf]
  have hao : attempt_outcome (.http 200 resp) =
      .error (.auth ((resp.authDescription2).getD "Auth failure")) := by
    simp only [attempt_outcome]
    rw [if_neg (by norm_num), if_neg (by norm_num), hrf]
  refine ⟨hrf, ?_⟩
  simp [call_records, call_function, callGo, hao, retryable]

/-- A response whose authentication failed while a result node carries
data and a failure of its own: exercises "regardless of result content". -/
def authFailResp : Resp :=
  ⟨some "success", Option.none, Option.none, some "failure", some "Invalid login",
    [⟨some "failure", some "No permission for this object", Option.none,
      Option.none, [.mk "CUSTOMER" "" [.mk "RECORDNO" "1" []]]⟩]⟩

/-- Witness for C6 on `authFailResp`. -/
theorem auth_failure_raises_auth_error_witness :
    ((∀ cs, authFailResp.controlStatus = some cs → lowerStr cs = "success") ∧
      authFailResp.authStatus = some "failure") ∧
    raise_if_failure authFailResp = some (.auth "Invalid login") ∧
    call_records (fun _ => .http 200 authFailResp) = .error (.auth "Invalid login") := by
  have hc : ∀ cs, authFailResp.controlStatus = some cs → lowerStr cs = "success" := by
    intro cs h
    have : "success" = cs := Option.some.inj h
    subst this
    decide
  have ha : authFailResp.authStatus = some "failure" := rfl
  have main := auth_failure_raises_auth_error authFailResp hc ha
  exact ⟨⟨hc, ha⟩, main.1, main.2⟩

/-- C7: when both the control and authentication blocks report success,
the first failing result node rules: if its surfaced message contains
permission-indicating text, or its error code is the known permission
code `WSP001`, the client raises `IntacctPermissionError` with that
message. -/
theorem result_permission_failure_raises_permission (resp : Resp)
    (pre post : List ResultNode) (r : ResultNode)
    (hc : ∀ cs, resp.controlStatus = some cs → lowerStr cs = "success")
    (ha : ∀ as, resp.authStatus = some as → lowerStr as = "success")
    (hres : resp.results = pre ++ r :: post)
    (hpre : ∀ q ∈ pre, resultFails q = false)
    (hfail : resultFails r = true)
    (hperm : pyIn "permission" (lowerStr (resultMessage r)) = true ∨
      (r.errorno).getD "" = "WSP001") :
    raise_if_failure resp = some (.permission (resultMessage r)) := by
  have hcf : classify_failed_result r = .permission (resultMessage r) := by
    unfold classify_failed_result
    rcases hperm with h | h
    · simp [h]
    · simp [h]
  have hcr : classify_results (pre ++ r :: post) = some (.permission (resultMessage r)) := by
    clear hres
    induction pre with
    | nil => simp [classify_results, hfail, hcf]
    | cons q t iht =>
      have hq : resultFails q = false := hpre q (by simp)
      simp only [List.cons_append, classify_results, hq, Bool.false_eq_true, if_false]
      exact iht (fun p hp => hpre p (List.mem_cons_of_mem q hp))
  have hcf : ctrlFails resp = false := by
    unfold ctrlFails
    cases hcs : resp.controlStatus with
    | none => rfl
    | some cs => simp [hc cs hcs]
  have haf : authFails resp = false := by
    unfold authFails
    cases has : resp.authStatus with
    | none => rfl
    | some as => simp [ha as has]
  simp [raise_if_failure, hcf, haf, hres, hcr]

/-- A response with successful control and authentication whose single
result fails with a permission message. -/
def permFailResp : Resp :=
  ⟨some "success", Option.none, Option.none, some "success", Option.none,
    [⟨some "failure", some "You do not have permission for API_READ", Option.none,
      some "XL03000006", []⟩]⟩

/-- Witness for C7 on `permFailResp`. -/
theorem result_permission_failure_raises_permission_witness :
    ((∀ cs, permFailResp.controlStatus = some cs → lowerStr cs = "success") ∧
      (∀ as, permFailResp.authStatus = some as → lowerStr as = "success") ∧
      permFailResp.results = [] ++
        ⟨some "failure", some "You do not have permission for API_READ", Option.none,
          some "XL03000006", []⟩ :: [] ∧
      resultFails ⟨some "failure", some "You do not have permission for API_READ",
        Option.none, some "XL03000006", []⟩ = true ∧
      pyIn "permission" (lowerStr (resultMessage
        ⟨some "failure", some "You do not have permission for API_READ", Option.none,
          some "XL03000006", []⟩)) = true) ∧
    raise_if_failure permFailResp =
      some (.permission "You do not have permission for API_READ") := by
  have hc : ∀ cs, permFailResp.controlStatus = some cs → lowerStr cs = "success" := by
    intro cs h
    have : "success" = cs := Option.some.inj h
    subst this
    decide
  have ha : ∀ as, permFailResp.authStatus = some as → lowerStr as = "success" := by
    intro as h
    have : "success" = as := Option.some.inj h
    subst this
    decide
  refine ⟨⟨hc, ha, rfl, by decide, by decide⟩, ?_⟩
  exact result_permission_failure_raises_permission permFailResp []
    [] ⟨some "failure", some "You do not have permission for API_READ", Option.none,
      some "XL03000006", []⟩ hc ha rfl (by simp) (by decide) (Or.inl (by decide))

/-! ## Lemmas about dict update -/

lemma dictGet_dictSet_self (d : Record) (k : String) (v : Val) :
    dictGet (dictSet d k v) k = some v := by
  induction d with
  | nil => simp [dictSet, dictGet]
  | cons kv t ih =>
    by_cases h : kv.1 = k
    · simp [dictSet, dictGet, h]
    · simp [dictSet, dictGet, h, ih]

lemma dictGet_dictSet_ne (d : Record) (k k' : String) (v : Val) (h : k ≠ k') :
    dictGet (dictSet d k v) k' = dictGet d k' := by
  induction d with
  | nil => simp [dictSet, dictGet, h]
  | cons kv t ih =>
    by_cases hk : kv.1 = k
    · simp [dictSet, dictGet, hk, h, ih]
    · by_cases hk' : kv.1 = k'
      · simp [dictSet, dictGet, hk, hk', Ne.symm h]
      · simp [dictSet, dictGet, hk, hk', ih]

lemma stampItem_fields (item : Record) (rno wm : Val) (ent : Option String) :
    dictGet (stampItem item rno wm ent) "INVOICE_RECORDNO" = some rno ∧
    dictGet (stampItem item rno wm ent) "WHENMODIFIED" = some wm ∧
    dictGet (stampItem item rno wm ent) "entity_id" = some (optStrVal ent) := by
  unfold stampItem
  refine ⟨?_, ?_, ?_⟩
  · rw [dictGet_dictSet_ne _ _ _ _ (by decide), dictGet_dictSet_ne _ _ _ _ (by decide),
      dictGet_dictSet_self]
  · rw [dictGet_dictSet_ne _ _ _ _ (by decide), dictGet_dictSet_self]
  · rw [dictGet_dictSet_self]

/-- C9: during the cursor-less fallback, every emitted item originates
from the nested invoice-item collections of a full parent record fetched
by the parent's key, and carries the parent's key as `INVOICE_RECORDNO`,
the parent's `WHENMODIFIED`, and the entity identifier. -/
theorem fallback_items_extracted_and_stamped (read_full : Val → List Record)
    (ent : Option String) (invoices : List Record) (item : Record)
    (hmem : item ∈ iter_items_for_invoice_records read_full ent invoices) :
    ∃ invoice ∈ invoices, ∃ rno, dictGet invoice "RECORDNO" = some rno ∧
      pyTruthyVal rno = true ∧
      ∃ full ∈ read_full rno, ∃ base ∈ extract_invoice_items full,
        item = stampItem base rno ((dictGet invoice "WHENMODIFIED").getD .none) ent ∧
        dictGet item "INVOICE_RECORDNO" = some rno ∧
        dictGet item "WHENMODIFIED" =
          some ((dictGet invoice "WHENMODIFIED").getD .none) ∧
        dictGet item "entity_id" = some (optStrVal ent) := by
  unfold iter_items_for_invoice_records at hmem
  rw [List.mem_flatMap] at hmem
  obtain ⟨invoice, hinv, hitem⟩ := hmem
  refine ⟨invoice, hinv, ?_⟩
  cases hrno : dictGet invoice "RECORDNO" with
  | none =>
    simp only [hrno] at hitem
    simp at hitem
  | some rno =>
    simp only [hrno] at hitem
    by_cases htr : pyTruthyVal rno = true
    · rw [if_pos htr] at hitem
      rw [List.mem_flatMap] at hitem
      obtain ⟨full, hfull, hitem⟩ := hitem
      rw [List.mem_map] at hitem
      obtain ⟨base, hbase, hstamp⟩ := hitem
      obtain ⟨f1, f2, f3⟩ := stampItem_fields base rno
        ((dictGet invoice "WHENMODIFIED").getD .none) ent
      exact ⟨rno, rfl, htr, full, hfull, base, hbase, hstamp.symm,
        hstamp ▸ f1, hstamp ▸ f2, hstamp ▸ f3⟩
    · rw [if_neg htr] at hitem
      simp at hitem

/-- Concrete data for the C9 witness: one invoice row, whose full record
holds one nested item list of two items. -/
def c9full : Record :=
  [("RECORDNO", Val.s "7"),
    ("ARINVOICEITEMS", Val.obj
      [("ARINVOICEITEM", Val.list
        [Val.obj [("LINE_NO", Val.s "1")], Val.obj [("LINE_NO", Val.s "2")]])])]

/-- The C9 witness invoice row as returned by the slice query. -/
def c9invoice : Record :=
  [("RECORDNO", Val.s "7"), ("WHENMODIFIED", Val.s "2024-01-02T00:00:00Z")]

/-- Witness for C9: the first emitted item of the concrete fallback run
satisfies the characterisation. -/
theorem fallback_items_extracted_and_stamped_witness :
    (stampItem [("ARINVOICEITEM", Val.list
        [Val.obj [("LINE_NO", Val.s "1")], Val.obj [("LINE_NO", Val.s "2")]])]
        (Val.s "7") (Val.s "2024-01-02T00:00:00Z") (some "E1")
      ∈ iter_items_for_invoice_records (fun _ => [c9full]) (some "E1") [c9invoice]) ∧
    (∃ invoice ∈ [c9invoice], ∃ rno, dictGet invoice "RECORDNO" = some rno ∧
      pyTruthyVal rno = true ∧
      ∃ full ∈ (fun (_ : Val) => [c9full]) rno, ∃ base ∈ extract_invoice_items full,
        stampItem [("ARINVOICEITEM", Val.list
          [Val.obj [("LINE_NO", Val.s "1")], Val.obj [("LINE_NO", Val.s "2")]])]
          (Val.s "7") (Val.s "2024-01-02T00:00:00Z") (some "E1") =
          stampItem base rno ((dictGet invoice "WHENMODIFIED").getD .none)
            (some "E1") ∧
        dictGet (stampItem [("ARINVOICEITEM", Val.list
          [Val.obj [("LINE_NO", Val.s "1")], Val.obj [("LINE_NO", Val.s "2")]])]
          (Val.s "7") (Val.s "2024-01-02T00:00:00Z") (some "E1"))
          "INVOICE_RECORDNO" = some rno ∧
        dictGet (stampItem [("ARINVOICEITEM", Val.list
          [Val.obj [("LINE_NO", Val.s "1")], Val.obj [("LINE_NO", Val.s "2")]])]
          (Val.s "7") (Val.s "2024-01-02T00:00:00Z") (some "E1"))
          "WHENMODIFIED" = some ((dictGet invoice "WHENMODIFIED").getD .none) ∧
        dictGet (stampItem [("ARINVOICEITEM", Val.list
          [Val.obj [("LINE_NO", Val.s "1")], Val.obj [("LINE_NO", Val.s "2")]])]
          (Val.s "7") (Val.s "2024-01-02T00:00:00Z") (some "E1"))
          "entity_id" = some (optStrVal (some "E1"))) := by
  have hmem : stampItem [("ARINVOICEITEM", Val.list
      [Val.obj [("LINE_NO", Val.s "1")], Val.obj [("LINE_NO", Val.s "2")]])]
      (Val.s "7") (Val.s "2024-01-02T00:00:00Z") (some "E1")
      ∈ iter_items_for_invoice_records (fun _ => [c9full]) (some "E1") [c9invoice] := by
    show _ ∈ iter_items_for_invoice_records (fun _ => [c9full]) (some "E1") [c9invoice]
    rw [show iter_items_for_invoice_records (fun _ => [c9full]) (some "E1") [c9invoice] =
      [stampItem [("ARINVOICEITEM", Val.list
        [Val.obj [("LINE_NO", Val.s "1")], Val.obj [("LINE_NO", Val.s "2")]])]
        (Val.s "7") (Val.s "2024-01-02T00:00:00Z") (some "E1")] from rfl]
    exact List.mem_singleton.2 rfl
  exact ⟨hmem, fallback_items_extracted_and_stamped (fun _ => [c9full]) (some "E1")
    [c9invoice] _ hmem⟩

/-- C10: when the first page carries a continuation token and every page
before the last reports a positive remaining count, the loop issues one
continuation call per further page until the remaining count reaches
zero; the emitted records are exactly all pages' records concatenated in
receipt order (stamped with the entity id, with no reordering or
deduplication), and each continuation call passes the last received
token — a response that omits its token leaves the previous token in
force. -/
theorem pagination_concatenates_until_remaining_zero (ent : Option String)
    (first : Page) (rest : List Page) (t0 : String)
    (h1 : first.resultId = some t0)
    (h2 : ∀ p ∈ (first :: rest).dropLast, 0 < p.numRemaining)
    (h3 : (rest.getLastD first).numRemaining = 0) :
    (drain_pages ent first rest).1 =
      (first :: rest).flatMap
        (fun p => p.records.map fun r => dictSet r "entity_id" (optStrVal ent)) ∧
    (drain_pages ent first rest).2 = expectedTokens t0 rest := by
  induction rest generalizing first t0 with
  | nil =>
    have h0 : first.numRemaining = 0 := h3
    simp [drain_pages, h1, h0, expectedTokens]
  | cons p t ih =>
    have hfirst : 0 < first.numRemaining := by
      apply h2 first
      simp [List.dropLast]
    have hnext :
        (drain_pages ent
          ⟨p.records, some ((p.resultId).getD t0), p.numRemaining⟩ t).1 =
          (⟨p.records, some ((p.resultId).getD t0), p.numRemaining⟩ :: t).flatMap
            (fun q => q.records.map fun r => dictSet r "entity_id" (optStrVal ent)) ∧
        (drain_pages ent
          ⟨p.records, some ((p.resultId).getD t0), p.numRemaining⟩ t).2 =
          expectedTokens ((p.resultId).getD t0) t := by
      apply ih
      · rfl
      · intro q hq
        cases t with
        | nil => simp at hq
        | cons b t' =>
          rw [List.dropLast_cons₂] at hq
          rcases List.mem_cons.1 hq with hq | hq
          · subst hq
            apply h2 p
            simp [List.dropLast]
          · apply h2 q
            have : q ∈ (p :: b :: t').dropLast := by
              rw [List.dropLast_cons₂]
              exact List.mem_cons_of_mem _ hq
            rw [List.dropLast_cons₂]
            exact List.mem_cons_of_mem _ this
      · cases t with
        | nil => exact h3
        | cons b t' =>
          have h3' := h3
          rw [List.getLastD_cons, List.getLastD_cons] at h3'
          rw [List.getLastD_cons]
          exact h3'
    have hng : ¬first.numRemaining ≤ 0 := by omega
    unfold drain_pages
    simp only [h1, hng, if_false]
    refine ⟨?_, ?_⟩
    · simp only [hnext.1, List.flatMap_cons]
    · simp only [hnext.2, expectedTokens]

/-- Concrete first page for the C10 witness: two records, token `"abc"`,
five remaining. -/
def c10first : Page :=
  ⟨[[("RECORDNO", Val.s "r1")], [("RECORDNO", Val.s "r2")]], some "abc", 5⟩

/-- Concrete continuation pages for the C10 witness: the middle page
omits its token (so `"abc"` must be carried forward) and still reports
two remaining; the final page reports zero. -/
def c10rest : List Page :=
  [⟨[[("RECORDNO", Val.s "r3")]], Option.none, 2⟩,
    ⟨[[("RECORDNO", Val.s "r4")]], some "xyz", 0⟩]

/-- Witness for C10 on the concrete three-page run. -/
theorem pagination_concatenates_until_remaining_zero_witness :
    (c10first.resultId = some "abc" ∧
      (∀ p ∈ (c10first :: c10rest).dropLast, 0 < p.numRemaining) ∧
      (c10rest.getLastD c10first).numRemaining = 0) ∧
    (drain_pages (some "E1") c10first c10rest).1 =
      (c10first :: c10rest).flatMap
        (fun p => p.records.map fun r => dictSet r "entity_id" (optStrVal (some "E1"))) ∧
    (drain_pages (some "E1") c10first c10rest).2 = expectedTokens "abc" c10rest :=
  ⟨⟨rfl, by decide, rfl⟩,
    pagination_concatenates_until_remaining_zero (some "E1") c10first c10rest "abc"
      rfl (by decide) rfl⟩

/-! ## Lemmas about flattening and sibling grouping -/

lemma flatten_no_obj_aux : ∀ n : ℕ,
    (∀ (v : Val) (k : String), sizeOf v ≤ n →
      ∀ p ∈ flattenEntry k v, isFlatV p.2 = true) ∧
    (∀ (fs : List (String × Val)) (k : String), sizeOf fs ≤ n →
      ∀ p ∈ flattenFields k fs, isFlatV p.2 = true) := by
  intro n
  induction n with
  | zero =>
    constructor
    · intro v k h
      exfalso
      cases v <;> simp at h
    · intro fs k h
      exfalso
      cases fs <;> simp at h
  | succ n ih =>
    constructor
    · intro v k h p hp
      cases v with
      | obj fields =>
        have hs : sizeOf fields ≤ n := by
          simp at h
          omega
        exact ih.2 fields k hs p hp
      | none =>
        simp [flattenEntry] at hp
        subst hp
        rfl
      | s text =>
        simp [flattenEntry] at hp
        subst hp
        rfl
      | list items =>
        simp [flattenEntry] at hp
        subst hp
        rfl
    · intro fs k h p hp
      cases fs with
      | nil => simp [flattenFields] at hp
      | cons kv rest =>
        obtain ⟨ck, cv⟩ := kv
        rw [flattenFields] at hp
        rcases List.mem_append.1 hp with h1 | h1
        · have hs : sizeOf cv ≤ n := by
            simp at h
            omega
          exact ih.1 cv _ hs p h1
        · have hs : sizeOf rest ≤ n := by
            simp at h
            omega
          exact ih.2 rest k hs p h1

lemma flattenEntry_of_flat (k : String) (v : Val) (h : isFlatV v = true) :
    flattenEntry k v = [(k, v)] := by
  cases v with
  | obj fields => simp [isFlatV] at h
  | none => rfl
  | s text => rfl
  | list items => rfl

lemma prepare_record_flatten_of_flat (l : Record) (h : ∀ p ∈ l, isFlatV p.2 = true) :
    prepare_record_flatten l = l := by
  induction l with
  | nil => rfl
  | cons kv t ih =>
    unfold prepare_record_flatten
    rw [List.flatMap_cons, flattenEntry_of_flat kv.1 kv.2 (h kv (by simp))]
    have := ih (fun p hp => h p (List.mem_cons_of_mem kv hp))
    unfold prepare_record_flatten at this
    rw [this]
    rfl

lemma prepare_record_flatten_flat (r : Record) :
    ∀ p ∈ prepare_record_flatten r, isFlatV p.2 = true := by
  intro p hp
  unfold prepare_record_flatten at hp
  rw [List.mem_flatMap] at hp
  obtain ⟨kv, _, hp⟩ := hp
  exact (flatten_no_obj_aux (sizeOf kv.2)).1 kv.2 kv.1 le_rfl p hp

lemma lookupGroup_appendGroup (acc : List (String × List Val)) (tag : String)
    (v : Val) (t : String) :
    lookupGroup (appendGroup acc tag v) t =
      if t = tag then some (((lookupGroup acc t).getD []) ++ [v])
      else lookupGroup acc t := by
  induction acc with
  | nil =>
    by_cases h : t = tag
    · subst h
      simp [appendGroup, lookupGroup]
    · simp [appendGroup, lookupGroup, h, Ne.symm h]
  | cons e rest ih =>
    obtain ⟨te, vse⟩ := e
    by_cases h1 : te = tag
    · subst h1
      by_cases h2 : t = te
      · subst h2
        simp [appendGroup, lookupGroup]
      · simp [appendGroup, lookupGroup, h2, Ne.symm h2]
    · by_cases h2 : te = t
      · subst h2
        simp [appendGroup, lookupGroup, h1]
      · simp [appendGroup, lookupGroup, h1, h2, ih]

lemma lookupGroup_groupChildren (cs : List XNode) : ∀ (acc : List (String × List Val))
    (t : String),
    lookupGroup (groupChildren acc cs) t =
      match lookupGroup acc t, (cs.filter (fun c => c.tag = t)).map element_to_value with
      | Option.none, [] => Option.none
      | Option.none, f :: fs => some (f :: fs)
      | some vs, fs => some (vs ++ fs) := by
  induction cs with
  | nil =>
    intro acc t
    rw [show groupChildren acc [] = acc from rfl]
    cases lookupGroup acc t <;> simp
  | cons c rest ih =>
    intro acc t
    rw [show groupChildren acc (c :: rest) =
      groupChildren (appendGroup acc c.tag (element_to_value c)) rest from rfl]
    rw [ih, lookupGroup_appendGroup]
    by_cases h : c.tag = t
    · rw [if_pos h.symm]
      rw [show (c :: rest).filter (fun c => c.tag = t) =
        c :: rest.filter (fun c => c.tag = t) from by simp [List.filter_cons, h]]
      cases hacc : lookupGroup acc t <;> simp
    · rw [if_neg (fun hh => h hh.symm)]
      rw [show (c :: rest).filter (fun c => c.tag = t) =
        rest.filter (fun c => c.tag = t) from by simp [List.filter_cons, h]]

lemma dictGet_collapseGrouped (g : List (String × List Val)) (t : String) :
    dictGet (collapseGrouped g) t =
      (lookupGroup g t).map fun vs =>
        match vs with
        | [x] => x
        | vs => Val.list vs := by
  induction g with
  | nil => rfl
  | cons e rest ih =>
    obtain ⟨te, vse⟩ := e
    rw [show collapseGrouped ((te, vse) :: rest) =
      (te, match vse with
        | [x] => x
        | vs => Val.list vs) :: collapseGrouped rest from rfl]
    by_cases h : te = t
    · subst h
      simp [dictGet, lookupGroup]
    · simp [dictGet, lookupGroup, h, ih]

lemma element_to_value_siblings (tag text : String) (c0 : XNode) (cs : List XNode)
    (t : String) :
    ∃ m, element_to_value (.mk tag text (c0 :: cs)) = .obj m ∧
      dictGet m t =
        match ((c0 :: cs).filter (fun c => c.tag = t)).map element_to_value with
        | [] => Option.none
        | [v] => some v
        | vs => some (.list vs) := by
  refine ⟨collapseGrouped (groupChildren [] (c0 :: cs)), rfl, ?_⟩
  rw [dictGet_collapseGrouped, lookupGroup_groupChildren]
  rw [show lookupGroup [] t = Option.none from rfl]
  cases hf : ((c0 :: cs).filter (fun c => c.tag = t)).map element_to_value with
  | nil => rfl
  | cons f fs =>
    cases fs with
    | nil => rfl
    | cons f2 fs2 => rfl

/-- C4: stream-output flattening (modelled from the spec, the
`_prepare_record` layer being absent from `streams.py`) joins ancestor
tag names with `"_"` into a single flat namespace — the nested
`BILLTO/MAILADDRESS/ADDRESS1` example flattens to
`BILLTO_MAILADDRESS_ADDRESS1` — and is total and idempotent; and
`element_to_value` (from the source) collapses repeated sibling tags
into the ordered list of all their values in document order, dropping
none, while a uniquely-tagged child stays scalar. -/
theorem records_flatten_into_joined_namespace (r : Record) (tag text : String)
    (c0 : XNode) (cs : List XNode) (t : String) :
    prepare_record_flatten
        [("BILLTO", Val.obj [("MAILADDRESS", Val.obj [("ADDRESS1", Val.s "123 Main")])])] =
      [("BILLTO_MAILADDRESS_ADDRESS1", Val.s "123 Main")] ∧
    prepare_record_flatten (prepare_record_flatten r) = prepare_record_flatten r ∧
    ∃ m, element_to_value (.mk tag text (c0 :: cs)) = .obj m ∧
      dictGet m t =
        match ((c0 :: cs).filter (fun c => c.tag = t)).map element_to_value with
        | [] => Option.none
        | [v] => some v
        | vs => some (.list vs) :=
  ⟨rfl, prepare_record_flatten_of_flat _ (prepare_record_flatten_flat r),
    element_to_value_siblings tag text c0 cs t⟩
